import Mathlib

/-!
Verification of the front-matter document model, index aggregation and page
generation logic of the pandoc-sitegen build script (src/build.py).

Text is modelled as `List Char`, written `Str`.  Python's `str.split(sep)`,
`str.strip()`, `str.lstrip()`, `''.join`, `str.removesuffix` are embedded as
executable functions on `Str`.  Structured values carried by the metadata
mapping (Python `Dict[str, Any]`) are modelled by the inductive `PyVal`;
Python `None` is the constructor `PyVal.none`.  Exceptions are modelled with
`Except PyErr`.  The pluggable frontmatter decoder (`yaml.safe_load`) and
encoder (`yaml.dump`) are kept abstract as function parameters, exactly as
they are constructor parameters of `PandocMarkdown` in the source.
-/

namespace Build

/-- Text, modelled as a list of characters. -/
abbrev Str := List Char

/-- Coerce a Lean string literal to the `Str` model. -/
def strOf (s : String) : Str := s.toList

/-- Python whitespace for `str.strip` / `str.lstrip` (ASCII part:
space, tab, newline, carriage return, vertical tab, form feed). -/
def isPySpace (c : Char) : Bool :=
  c == ' ' || c == '\t' || c == '\n' || c == '\r' || c == '\x0b' || c == '\x0c'

/-- Python `str.lstrip()`. -/
def lstripL (s : Str) : Str := s.dropWhile isPySpace

/-- Python `str.rstrip()`. -/
def rstripL (s : Str) : Str := (s.reverse.dropWhile isPySpace).reverse

/-- Python `str.strip()`. -/
def stripL (s : Str) : Str := lstripL (rstripL s)

/-- Index of the leftmost occurrence of `d` in `s` (`str.find` for a
non-empty needle), `none` if `d` does not occur. -/
def findSub (d : Str) : Str → Option Nat
  | [] => none
  | c :: rest =>
    if d.isPrefixOf (c :: rest) then some 0
    else (findSub d rest).map (· + 1)

/-- Fuelled worker for `splitOnList`; each recursive call consumes at least
one character of `s` when `d` is non-empty, so fuel `s.length + 1` is always
sufficient. -/
def splitOnCore (d : Str) : Nat → Str → List Str
  | 0, s => [s]
  | fuel + 1, s =>
    match findSub d s with
    | none => [s]
    | some i => s.take i :: splitOnCore d fuel (s.drop (i + d.length))

/-- Python `s.split(d)` for a non-empty separator `d`: cut at each leftmost
non-overlapping occurrence of `d`.  (Python raises on an empty separator;
the guard returns `[s]` there, and every theorem below assumes `d ≠ []`.) -/
def splitOnList (d s : Str) : List Str :=
  if d = [] then [s] else splitOnCore d (s.length + 1) s

/-- Structured values as decoded from YAML / held in Python objects. -/
inductive PyVal where
  | str (s : Str)
  | int (n : Int)
  | bool (b : Bool)
  | none
  | list (xs : List PyVal)
  | dict (entries : List (Str × PyVal))

/-- Python exceptions raised by the script.  The two `ValueError`s of
`PandocMarkdown.load_file` are named after the spec's error kinds. -/
inductive PyErr where
  /-- `ValueError("file does not start with yaml front matter ...")`. -/
  | malformedDocument
  /-- `ValueError("missing sections in file ...")`. -/
  | missingDelimiters
  /-- a failure inside the pluggable yaml decoder. -/
  | yamlError
  /-- PyYAML `ConstructorError` for an unknown or misapplied tag. -/
  | constructorError (tag : Str)
  | typeError
  | keyError (k : Str)
  | fileNotFound
  /-- `UnboundLocalError` for a local that was annotated but never assigned. -/
  | unboundLocal (name : Str)
  /-- the bare `Exception('')` raised by `dumps` when frontmatter/content is `None`. -/
  | emptyException
  deriving DecidableEq

/-- The front-matter document object (class `PandocMarkdown`, src lines
21–80).  The pluggable `loader`/`writer` callables are passed to the
operations instead of being stored, since Lean functions cannot be compared;
everything else mirrors the attributes set in `__init__`. -/
structure PandocMarkdown where
  delim : Str
  frontmatter : PyVal
  content : Str
  initialized : Bool

/-- The default delimiter `'---'` of `PandocMarkdown.__init__`. -/
def defaultDelim : Str := strOf "---"

/-- `PandocMarkdown.__init__` (src lines 22–37): `initialized = False`,
`frontmatter = dict()`, `content = ''`. -/
def PandocMarkdown.init (delim : Str) : PandocMarkdown :=
  ⟨delim, PyVal.dict [], [], false⟩

/-- `PandocMarkdown.load_file` (src lines 39–63), with the file's text passed
directly (the `open`/`read` is performed by the caller model): split on the
delimiter, fail if the zeroth section is non-empty after stripping, fail if
fewer than three sections result, decode section 1 with the loader, rejoin
sections 2.. with the delimiter as the content. -/
def PandocMarkdown.load_text (loader : Str → Except PyErr PyVal)
    (pmd : PandocMarkdown) (text : Str) : Except PyErr PandocMarkdown :=
  let sections := splitOnList pmd.delim text
  if stripL (sections.headD []) ≠ [] then
    .error .malformedDocument
  else if sections.length < 3 then
    .error .missingDelimiters
  else
    match loader (sections.getD 1 []) with
    | .error e => .error e
    | .ok fm => .ok ⟨pmd.delim, fm, List.intercalate pmd.delim (sections.drop 2), true⟩

/-- `PandocMarkdown.dumps` (src lines 71–80): raise if the frontmatter is
`None` (the model's `content` is always a string, so the `content is None`
half of the guard cannot fire, matching the Python attribute types), else
join delimiter, stripped encoded frontmatter, delimiter and left-stripped
content with newlines. -/
def PandocMarkdown.dumps (writer : PyVal → Str) (pmd : PandocMarkdown) :
    Except PyErr Str :=
  match pmd.frontmatter with
  | PyVal.none => .error .emptyException
  | fm =>
    .ok (List.intercalate (strOf "\n")
      [pmd.delim, stripL (writer fm), pmd.delim, lstripL pmd.content])

/-! ### File system, configuration and path model -/

/-- The file system, as an association list from path to file contents, in
filesystem enumeration order (the order in which `glob` yields entries). -/
abbrev FS := List (Str × Str)

/-- `open(p).read()`: contents of the first entry named `p`. -/
def fsRead : FS → Str → Option Str
  | [], _ => Option.none
  | (q, c) :: t, p => if q == p then some c else fsRead t p

/-- `open(p, 'w').write(c)`: overwrite the entry named `p`, or create it. -/
def fsWrite : FS → Str → Str → FS
  | [], p, c => [(p, c)]
  | (q, d) :: t, p, c => if q == p then (q, c) :: t else (q, d) :: fsWrite t p c

/-- `Path(p).name`: the final path component. -/
def fileName (p : Str) : Str := (splitOnList (strOf "/") p).getLastD []

/-- `Path(p).parent`, rendered as the directory part of the path
(everything before the final component; `[]` for a bare file name, standing
for Python's `'.'`). -/
def parentDir (p : Str) : Str :=
  List.intercalate (strOf "/") ((splitOnList (strOf "/") p).dropLast)

/-- `Path(p).stem`: the final component without its last dot-suffix.
(Python treats a lone leading dot specially; such hidden files do not occur
in the scenarios of the claims.) -/
def stemOf (p : Str) : Str :=
  let n := fileName p
  let parts := splitOnList (strOf ".") n
  if parts.length ≤ 1 then n else List.intercalate (strOf ".") parts.dropLast

/-- Python `str.removesuffix`. -/
def removeSuffix (s suf : Str) : Str :=
  if suf.isSuffixOf s ∧ suf ≠ [] then s.take (s.length - suf.length) else s

/-- The configuration mapping `CFG`, loaded once from the config file. -/
structure Config where
  content : Str
  public : Str
  header : Str
  before : Str
  after : Str
  filters : List Str
  make_index_files : Bool
  generated_index_suffix : Str
  mustache_rerender : Bool

/-- Python `k in v`: on a dict it checks keys, on a string substring, on a
list element equality (with string elements — the script only applies it to
decoded frontmatter); `None`, numbers and booleans raise `TypeError`. -/
def pyContains (k : Str) (v : PyVal) : Except PyErr Bool :=
  match v with
  | .dict m => .ok (m.any (fun e => e.1 == k))
  | .str s => .ok (decide (k <:+: s))
  | .list xs => .ok (xs.any (fun x => match x with | .str s => s == k | _ => false))
  | _ => .error .typeError

/-- Python `v[k]` for a dict `v`. -/
def pyGetItem (v : PyVal) (k : Str) : Except PyErr PyVal :=
  match v with
  | .dict m =>
    match List.lookup k m with
    | some w => .ok w
    | Option.none => .error (.keyError k)
  | _ => .error .typeError

/-- Python `m[k] = v` on a dict: overwrite in place, else append at the
end, preserving insertion order. -/
def dictSet (m : List (Str × PyVal)) (k : Str) (v : PyVal) : List (Str × PyVal) :=
  match m with
  | [] => [(k, v)]
  | (k', v') :: t => if k' == k then (k', v) :: t else (k', v') :: dictSet t k v

/-- `PandocMarkdown.create_from_file` (src lines 65–69) with the default
construction arguments: read the file and parse it. -/
def create_from_file (loader : Str → Except PyErr PyVal) (fs : FS)
    (filename : Str) : Except PyErr PandocMarkdown :=
  match fsRead fs filename with
  | Option.none => .error .fileNotFound
  | some text => (PandocMarkdown.init defaultDelim).load_text loader text

/-! ### The Index Aggregator (`add_index_page`, src lines 144–179) -/

/-- `path_original.parent.glob(stem + '*')` (src line 166): the paths of
the files in the same directory whose name starts with the stem of
`path_original`, in filesystem enumeration order; no exclusion filter. -/
def globStem (fs : FS) (path_original : Str) : List Str :=
  (fs.filter (fun e =>
    parentDir e.1 == parentDir path_original
      && (stemOf path_original).isPrefixOf (fileName e.1))).map (fun e => e.1)

/-- Src lines 159–162 of `add_index_page`: when the frontmatter has a
`template_file` key, read that file and append its contents to the
content. -/
def template_step (fs : FS) (doc : PandocMarkdown) : Except PyErr PandocMarkdown :=
  match pyContains (strOf "template_file") doc.frontmatter with
  | .error e => .error e
  | .ok false => .ok doc
  | .ok true =>
    match pyGetItem doc.frontmatter (strOf "template_file") with
    | .error e => .error e
    | .ok (.str tf) =>
      match fsRead fs tf with
      | some t => .ok ⟨doc.delim, doc.frontmatter, doc.content ++ t, doc.initialized⟩
      | Option.none => .error .fileNotFound
    | .ok _ => .error .typeError

/-- Worker for src lines 164–169: parse each discovered sibling, take its
frontmatter (item assignment requires a mapping) and set the synthetic
`__filename__` key to the sibling's path, in order. -/
def collect_go (loader : Str → Except PyErr PyVal) (fs : FS) :
    List Str → Except PyErr (List (List (Str × PyVal)))
  | [] => .ok []
  | dp :: rest =>
    match create_from_file loader fs dp with
    | .error e => .error e
    | .ok d =>
      match d.frontmatter with
      | .dict m =>
        match collect_go loader fs rest with
        | .error e => .error e
        | .ok rs => .ok (dictSet m (strOf "__filename__") (.str dp) :: rs)
      | _ => .error .typeError

/-- Src lines 164–169 of `add_index_page`: the `downstream_frontmatter`
list. -/
def collect_downstream (loader : Str → Except PyErr PyVal) (fs : FS)
    (path_original : Str) : Except PyErr (List (List (Str × PyVal))) :=
  collect_go loader fs (globStem fs path_original)

/-- `add_index_page` (src lines 144–179), parameterized by the pluggable
decoder/encoder and the template engine (`chevron.render`): compute the new
path, parse the original document, optionally append the template file,
collect the downstream frontmatters, render the content with the single
template variable `children` bound to that sequence, serialize, and write
the result to the new path.  Returns the updated file system and the new
path. -/
def add_index_page (loader : Str → Except PyErr PyVal) (writer : PyVal → Str)
    (render : Str → List (Str × PyVal) → Str) (cfg : Config) (fs : FS)
    (path_original : Str) : Except PyErr (FS × Str) :=
  let path_new := removeSuffix path_original (strOf ".md")
    ++ cfg.generated_index_suffix
  match create_from_file loader fs path_original with
  | .error e => .error e
  | .ok doc =>
    match template_step fs doc with
    | .error e => .error e
    | .ok doc2 =>
      match collect_downstream loader fs path_original with
      | .error e => .error e
      | .ok dfm =>
        let new_content := render doc2.content
          [(strOf "children", PyVal.list (dfm.map PyVal.dict))]
        match PandocMarkdown.dumps writer
            ⟨doc2.delim, doc2.frontmatter, new_content, doc2.initialized⟩ with
        | .error e => .error e
        | .ok out => .ok (fsWrite fs path_new out, path_new)

/-- Specification-side reading of the sibling collection (claim C4),
defined from the claim's words: for each file in the same directory whose
name starts with the original document's stem, in enumeration order, the
file's parsed metadata mapping augmented with the one synthetic key holding
the file's path. -/
def specGo (loader : Str → Except PyErr PyVal) :
    List (Str × Str) → Except PyErr (List (List (Str × PyVal)))
  | [] => .ok []
  | (p, text) :: rest =>
    match (PandocMarkdown.init defaultDelim).load_text loader text with
    | .error e => .error e
    | .ok d =>
      match d.frontmatter with
      | .dict m =>
        match specGo loader rest with
        | .error e => .error e
        | .ok rs => .ok (dictSet m (strOf "__filename__") (.str p) :: rs)
      | _ => .error .typeError

/-- Specification-side sibling-record sequence for claim C4. -/
def siblingRecordsSpec (loader : Str → Except PyErr PyVal) (fs : FS)
    (path_original : Str) : Except PyErr (List (List (Str × PyVal))) :=
  specGo loader (fs.filter (fun e =>
    decide (parentDir e.1 = parentDir path_original)
      && decide (stemOf path_original <+: fileName e.1)))

/-! ### The template engine and the rerender step -/

/-- Python `str()` of a decoded value, as used by the `join` constructor
and by template interpolation.  Containers are abbreviated: the script
never stringifies them in the scenarios covered by the claims. -/
def pyStr : PyVal → Str
  | .str s => s
  | .int n => strOf (toString n)
  | .bool b => strOf (if b then "True" else "False")
  | .none => strOf "None"
  | .list _ => strOf "[...]"
  | .dict _ => strOf "dict"

/-- Interpolation of one variable tag: top-level lookup of the key in the
context mapping; a missing key renders as the empty string. -/
def interpolate (k : Str) (ctx : List (Str × PyVal)) : Str :=
  match List.lookup k ctx with
  | some v => pyStr v
  | Option.none => []

/-- Modelled from the spec: the template-engine collaborator
(`chevron.render` is not part of this repository).  Spec §6: "given a text
template and a variable context, produces expanded text"; only plain
double-brace variable substitution is modelled, which is the part the
claims exercise: a tag's key is looked up at the top level of the context
and a missing key expands to the empty string.  Sections and unclosed tags
are not modelled (an unclosed opening brace pair is emitted verbatim).
Each step consumes at least one character, so fuel `length + 1` suffices. -/
def mustacheGo (ctx : List (Str × PyVal)) : Nat → Str → Str
  | 0, s => s
  | fuel + 1, s =>
    match s with
    | [] => []
    | '\x7b' :: '\x7b' :: rest =>
      match findSub (strOf "\x7d\x7d") rest with
      | some i =>
        interpolate (stripL (rest.take i)) ctx
          ++ mustacheGo ctx fuel (rest.drop (i + 2))
      | Option.none => '\x7b' :: '\x7b' :: rest
    | c :: rest => c :: mustacheGo ctx fuel rest

/-- Modelled from the spec: `chevron.render(template, context)`. -/
def mustacheRender (tmpl : Str) (ctx : List (Str × PyVal)) : Str :=
  mustacheGo ctx (tmpl.length + 1) tmpl

/-- Src lines 209–215 (the `mustache_rerender` tail of `gen_page`),
modelled standalone: if the flag is set, re-read the converter's output
file, render it with the context mapping holding the single key `children`
bound to the document's frontmatter (line 213), and overwrite the file.
(In the current code this point is unreachable because `gen_cmd` raises
first — see `gen_cmd`.) -/
def gen_page_rerender (render : Str → List (Str × PyVal) → Str) (cfg : Config)
    (fs : FS) (out_path : Str) (frontmatter : PyVal) : Except PyErr FS :=
  if cfg.mustache_rerender then
    match fsRead fs out_path with
    | Option.none => .error .fileNotFound
    | some content =>
      .ok (fsWrite fs out_path (render content [(strOf "children", frontmatter)]))
  else .ok fs

/-! ### `gen_cmd` (src lines 106–136) -/

/-- `Path(a) / Path(b)` for a relative right operand, without
normalization (sufficient here: the command never gets built, see
`gen_cmd`). -/
def pathJoin (a b : Str) : Str := a ++ '/' :: b

/-- `gen_cmd` (src lines 106–136).  Line 118 reads
`out_path : Path(CFG['public']) / Path(f'...')` — a bare variable
annotation, not an assignment (the `=` is missing); a local variable's
annotation expression is never evaluated and the name is never bound, so
the reference at line 129, while building the command list, raises
`UnboundLocalError`.  The local is modelled as an unassigned `Option`, and
the intended command shape is kept in the (unreachable) bound branch. -/
def gen_cmd (cfg : Config) (plain_path : Str) (plain_path_out : Option Str) :
    Except PyErr (List Str × Str) :=
  let plain_path_out := plain_path_out.getD plain_path
  let out_path : Option Str := Option.none
  match out_path with
  | Option.none => .error (.unboundLocal (strOf "out_path"))
  | some op =>
    .ok ([strOf "pandoc",
      strOf "--include-in-header", cfg.header,
      strOf "--include-before-body", cfg.before,
      strOf "--include-after-body", cfg.after,
      strOf "--mathjax",
      strOf "-f", strOf "markdown",
      strOf "-t", strOf "html5",
      strOf "-o", op,
      pathJoin cfg.content (plain_path_out ++ strOf ".md")]
      ++ (cfg.filters.map (fun f => [strOf "--filter", f])).flatten, op)

/-! ### The YAML `!join` constructor (src lines 13–18) -/

/-- A composed YAML node tree (the output of PyYAML's parse/compose stages,
which are shared by all loader classes and are not modelled); plain scalars
carry their resolved value. -/
inductive YamlNode where
  | scalar (v : PyVal)
  | seq (items : List YamlNode)
  | map (entries : List (Str × YamlNode))
  | tagged (tag : Str) (inner : YamlNode)

/-- `join` (src lines 13–15): `loader.construct_sequence(node)` followed by
`''.join(str(i) for i in seq)`. -/
def join (items : List PyVal) : Except PyErr PyVal :=
  .ok (.str ((items.map pyStr).flatten))

/-!
Modelled from PyYAML (not part of this repository): constructing Python
values from a composed node tree, given the loader class's registry of
custom tag constructors (each applied to the constructed sequence, the only
form used — `join` starts with `construct_sequence`).  A tag missing from
the registry, or a tagged node that is not a sequence, raises
`ConstructorError`.
-/
mutual

/-- See the comment above. -/
def construct (reg : List (Str × (List PyVal → Except PyErr PyVal))) :
    YamlNode → Except PyErr PyVal
  | .scalar v => .ok v
  | .seq xs =>
    match constructList reg xs with
    | .error e => .error e
    | .ok vs => .ok (.list vs)
  | .map kvs =>
    match constructPairs reg kvs with
    | .error e => .error e
    | .ok ps => .ok (.dict ps)
  | .tagged tag inner =>
    match List.lookup tag reg with
    | some h =>
      match inner with
      | .seq xs =>
        match constructList reg xs with
        | .error e => .error e
        | .ok vs => h vs
      | _ => .error (.constructorError tag)
    | Option.none => .error (.constructorError tag)

def constructList (reg : List (Str × (List PyVal → Except PyErr PyVal))) :
    List YamlNode → Except PyErr (List PyVal)
  | [] => .ok []
  | n :: t =>
    match construct reg n with
    | .error e => .error e
    | .ok v =>
      match constructList reg t with
      | .error e => .error e
      | .ok vs => .ok (v :: vs)

def constructPairs (reg : List (Str × (List PyVal → Except PyErr PyVal))) :
    List (Str × YamlNode) → Except PyErr (List (Str × PyVal))
  | [] => .ok []
  | (k, n) :: t =>
    match construct reg n with
    | .error e => .error e
    | .ok v =>
      match constructPairs reg t with
      | .error e => .error e
      | .ok ps => .ok ((k, v) :: ps)
end

/-- The custom-constructor registries.  `yaml.add_constructor('!join', join)`
(src line 18) without a `Loader` argument registers the handler on the
default, Full and Unsafe loader classes only — PyYAML's documented
behaviour leaves `SafeLoader` untouched.  `yaml.safe_load`, the frontmatter
decoder default (src line 25), therefore has no custom constructors, while
`yaml.full_load` (used for the config file, src line 248) knows `!join`. -/
def safeRegistry : List (Str × (List PyVal → Except PyErr PyVal)) := []

/-- See `safeRegistry`. -/
def fullRegistry : List (Str × (List PyVal → Except PyErr PyVal)) :=
  [(strOf "!join", join)]

/-- `yaml.safe_load` at the construction stage. -/
def safe_load_node (n : YamlNode) : Except PyErr PyVal := construct safeRegistry n

/-- `yaml.full_load` at the construction stage. -/
def full_load_node (n : YamlNode) : Except PyErr PyVal := construct fullRegistry n

/-- A concrete pluggable decoder used to instantiate the model in witnesses:
decodes a metadata section to the stripped text itself. -/
def loaderEx : Str → Except PyErr PyVal := fun s => .ok (.str (stripL s))

/-- A concrete pluggable encoder matching `loaderEx`: emits the string
payload of a string value. -/
def writerEx : PyVal → Str := fun v =>
  match v with
  | .str s => s
  | _ => []

/-- A concrete decoder producing a mapping, used to instantiate the index
aggregator in witnesses. -/
def dictLoaderEx : Str → Except PyErr PyVal :=
  fun s => .ok (.dict [(strOf "k", .str (stripL s))])

/-- A concrete decoder producing a mapping with a `template_file` key whose
value is the stripped metadata text, used for the template-file witness. -/
def tplLoaderEx : Str → Except PyErr PyVal :=
  fun s => .ok (.dict [(strOf "template_file", .str (stripL s))])

/-- Concrete index-page scenario for the C4 witness: an index file, one
matching sibling and one non-matching file. -/
def fsC4 : FS :=
  [(strOf "d/notes.md", strOf "---\nIDX\n---B"),
   (strOf "d/notes.1.md", strOf "---\nONE\n---X"),
   (strOf "d/other.md", strOf "---\nZZZ\n---Y")]

/-- A concrete configuration with index generation and rerendering on. -/
def cfgIdx : Config := ⟨[], [], [], [], [], [], true, strOf "._index.md", true⟩

/-- The parse of `d/notes.md` from `fsC4` under `dictLoaderEx`. -/
def docC4 : PandocMarkdown :=
  ⟨defaultDelim, .dict [(strOf "k", .str (strOf "IDX"))], strOf "B", true⟩

/-- The sibling records collected from `fsC4`. -/
def recsC4 : List (List (Str × PyVal)) :=
  [[(strOf "k", .str (strOf "IDX")),
    (strOf "__filename__", .str (strOf "d/notes.md"))],
   [(strOf "k", .str (strOf "ONE")),
    (strOf "__filename__", .str (strOf "d/notes.1.md"))]]

/-- Concrete scenario for the C6 witness: an index file with an empty body
and a `template_file` key pointing at `d/tpl.txt`. -/
def fsC6 : FS :=
  [(strOf "d/notes.md", strOf "---\nd/tpl.txt\n---"),
   (strOf "d/tpl.txt", strOf "Hello")]

/-- The parse of `d/notes.md` from `fsC6` under `tplLoaderEx`. -/
def docC6 : PandocMarkdown :=
  ⟨defaultDelim, .dict [(strOf "template_file", .str (strOf "d/tpl.txt"))],
    [], true⟩

/-- The sibling records collected from `fsC6`. -/
def recsC6 : List (List (Str × PyVal)) :=
  [[(strOf "template_file", .str (strOf "d/tpl.txt")),
    (strOf "__filename__", .str (strOf "d/notes.md"))]]

/-! ### Properties of the text-splitting primitives -/

theorem findSub_some_le {d s : Str} {i : Nat} (h : findSub d s = some i) :
    i + d.length ≤ s.length := by
  induction s generalizing i with
  | nil => simp [findSub] at h
  | cons c rest ih =>
    rw [findSub] at h
    split at h
    · rename_i hp
      cases h
      simpa using (List.isPrefixOf_iff_prefix.mp hp).length_le
    · cases hr : findSub d rest with
      | none => rw [hr] at h; simp at h
      | some j =>
        rw [hr] at h
        simp only [Option.map_some', Option.some.injEq] at h
        have := ih hr
        simp only [List.length_cons]
        omega

theorem findSub_isPre {d s : Str} {i : Nat} (h : findSub d s = some i) :
    d <+: s.drop i := by
  induction s generalizing i with
  | nil => simp [findSub] at h
  | cons c rest ih =>
    rw [findSub] at h
    split at h
    · rename_i hp
      cases h
      simpa using List.isPrefixOf_iff_prefix.mp hp
    · cases hr : findSub d rest with
      | none => rw [hr] at h; simp at h
      | some j =>
        rw [hr] at h
        simp only [Option.map_some', Option.some.injEq] at h
        subst h
        simpa using ih hr

theorem splitOnCore_fuel {d : Str} (hd : d ≠ []) :
    ∀ (n m : Nat) (s : Str), s.length < n → s.length < m →
      splitOnCore d n s = splitOnCore d m s := by
  intro n
  induction n with
  | zero => intro m s hn _; omega
  | succ n ih =>
    intro m s hn hm
    cases m with
    | zero => omega
    | succ m =>
      cases hf : findSub d s with
      | none => simp only [splitOnCore, hf]
      | some i =>
        have hle := findSub_some_le hf
        have hdpos : 0 < d.length := List.length_pos.mpr hd
        have h1 : (s.drop (i + d.length)).length < n := by
          simp only [List.length_drop]; omega
        have h2 : (s.drop (i + d.length)).length < m := by
          simp only [List.length_drop]; omega
        simp only [splitOnCore, hf]
        rw [ih _ _ h1 h2]

theorem splitOnCore_succ (d : Str) (n : Nat) (s : Str) :
    splitOnCore d (n + 1) s =
      match findSub d s with
      | none => [s]
      | some i => s.take i :: splitOnCore d n (s.drop (i + d.length)) := rfl

theorem splitOnList_eq {d : Str} (hd : d ≠ []) (s : Str) :
    splitOnList d s =
      match findSub d s with
      | none => [s]
      | some i => s.take i :: splitOnList d (s.drop (i + d.length)) := by
  rw [show splitOnList d s = splitOnCore d (s.length + 1) s from by
        rw [splitOnList, if_neg hd],
      splitOnCore_succ]
  cases hf : findSub d s with
  | none => rfl
  | some i =>
    show s.take i :: splitOnCore d s.length (s.drop (i + d.length))
        = s.take i :: splitOnList d (s.drop (i + d.length))
    congr 1
    rw [show splitOnList d (s.drop (i + d.length))
          = splitOnCore d ((s.drop (i + d.length)).length + 1) (s.drop (i + d.length)) from by
        rw [splitOnList, if_neg hd]]
    have hle := findSub_some_le hf
    have hdpos : 0 < d.length := List.length_pos.mpr hd
    refine splitOnCore_fuel hd _ _ _ ?_ (Nat.lt_succ_self _)
    simp only [List.length_drop]
    omega

theorem splitOnCore_ne_nil (d : Str) (n : Nat) (s : Str) :
    splitOnCore d n s ≠ [] := by
  cases n with
  | zero => simp [splitOnCore]
  | succ n =>
    rw [splitOnCore]
    cases findSub d s <;> simp

theorem splitOnList_ne_nil (d s : Str) : splitOnList d s ≠ [] := by
  unfold splitOnList
  split
  · simp
  · exact splitOnCore_ne_nil d _ s

theorem intercalate_cons₂ (d a b : Str) (t : List Str) :
    List.intercalate d (a :: b :: t) = a ++ d ++ List.intercalate d (b :: t) := by
  simp [List.intercalate, List.append_assoc]

theorem intercalate_single (d a : Str) : List.intercalate d [a] = a := by
  simp [List.intercalate]

theorem intercalate_splitOnList {d : Str} (hd : d ≠ []) (s : Str) :
    List.intercalate d (splitOnList d s) = s := by
  have H : ∀ (n : Nat) (s : Str), s.length ≤ n →
      List.intercalate d (splitOnList d s) = s := by
    intro n
    induction n with
    | zero =>
      intro s hs
      have : s = [] := List.length_eq_zero.mp (Nat.le_zero.mp hs)
      subst this
      rw [splitOnList_eq hd]
      simp [findSub, intercalate_single]
    | succ n ih =>
      intro s hs
      cases hf : findSub d s with
      | none =>
        rw [splitOnList_eq hd]
        simp only [hf]
        exact intercalate_single d s
      | some i =>
        have hle := findSub_some_le hf
        have hdpos : 0 < d.length := List.length_pos.mpr hd
        have hrec := ih (s.drop (i + d.length)) (by simp [List.length_drop]; omega)
        rw [splitOnList_eq hd]
        simp only [hf]
        cases hsp : splitOnList d (s.drop (i + d.length)) with
        | nil => exact absurd hsp (splitOnList_ne_nil d _)
        | cons b t =>
          rw [intercalate_cons₂, ← hsp, hrec]
          obtain ⟨u, hu⟩ := findSub_isPre hf
          have hu2 : u = s.drop (i + d.length) := by
            have hdd : (s.drop i).drop d.length = s.drop (i + d.length) := by
              rw [List.drop_drop, Nat.add_comm]
            rw [← hdd, ← hu, List.drop_left]
          rw [List.append_assoc, ← hu2, hu, List.take_append_drop]
  exact H s.length s le_rfl

theorem findSub_delim {d : Str} (hd : d ≠ []) (rest : Str) :
    findSub d (d ++ rest) = some 0 := by
  cases hdd : d with
  | nil => exact absurd hdd hd
  | cons c t =>
    rw [← hdd]
    have hcons : d ++ rest = c :: (t ++ rest) := by rw [hdd]; rfl
    rw [hcons, findSub, if_pos]
    rw [← hcons]
    exact List.isPrefixOf_iff_prefix.mpr (List.prefix_append d rest)

theorem splitOnList_cons_delim {d : Str} (hd : d ≠ []) (rest : Str) :
    splitOnList d (d ++ rest) = [] :: splitOnList d rest := by
  rw [splitOnList_eq hd, findSub_delim hd]
  simp [List.drop_left]

theorem findSub_append_no_occ {d : Str} (hd : d ≠ []) :
    ∀ (x : Str) (rest : Str), ¬ d <:+: (x ++ d.dropLast) →
      findSub d (x ++ d ++ rest) = some x.length := by
  intro x
  induction x with
  | nil =>
    intro rest _
    simpa using findSub_delim hd rest
  | cons c x' ih =>
    intro rest hx
    have hx' : ¬ d <:+: (x' ++ d.dropLast) := fun h =>
      hx (h.trans (List.infix_cons (List.infix_refl _)))
    have hshape : (c :: x') ++ d ++ rest = c :: (x' ++ d ++ rest) := by simp
    rw [hshape, findSub]
    have hnp : ¬ (d.isPrefixOf (c :: (x' ++ d ++ rest)) = true) := by
      intro hp
      apply hx
      have hpre : d <+: ((c :: x') ++ d.dropLast) ++ (d.getLast hd :: rest) := by
        have hsplit : c :: (x' ++ d ++ rest) =
            ((c :: x') ++ d.dropLast) ++ (d.getLast hd :: rest) := by
          conv_lhs => rw [← List.dropLast_concat_getLast hd]
          simp [List.append_assoc]
        rw [← hsplit]
        exact List.isPrefixOf_iff_prefix.mp hp
      obtain ⟨u, hu⟩ := hpre
      have hlen : d.length ≤ ((c :: x') ++ d.dropLast).length := by
        have hdpos : 0 < d.length := List.length_pos.mpr hd
        simp [List.length_dropLast]
        omega
      have htake : d = ((c :: x') ++ d.dropLast).take d.length := by
        have h2 := congrArg (List.take d.length) hu
        rw [List.take_left, List.take_append_of_le_length hlen] at h2
        exact h2
      have hpfx : d <+: ((c :: x') ++ d.dropLast) := by
        nth_rewrite 1 [htake]
        exact List.take_prefix _ _
      exact hpfx.isInfix
    rw [if_neg hnp, ih rest hx']
    simp

theorem splitOnList_append_no_occ {d x rest : Str} (hd : d ≠ [])
    (hx : ¬ d <:+: (x ++ d.dropLast)) :
    splitOnList d (x ++ d ++ rest) = x :: splitOnList d rest := by
  rw [splitOnList_eq hd]
  simp only [findSub_append_no_occ hd x rest hx]
  congr 1
  · rw [List.append_assoc]
    exact List.take_left x (d ++ rest)
  · rw [show x.length + d.length = (x ++ d).length by simp, List.drop_left]

/-! ### Generic facts about `load_text` -/

theorem stripL_nil : stripL [] = [] := rfl

/-- Evaluation of `load_file` once the section list is known to have the
shape `"" :: metadata :: body-sections` with a non-empty body part. -/
theorem load_text_sections (loader : Str → Except PyErr PyVal)
    (pmd : PandocMarkdown) {text m : Str} {q : Str} {t : List Str}
    (hsec : splitOnList pmd.delim text = [] :: m :: q :: t) :
    pmd.load_text loader text =
      match loader m with
      | .error e => .error e
      | .ok fm => .ok ⟨pmd.delim, fm, List.intercalate pmd.delim (q :: t), true⟩ := by
  simp only [PandocMarkdown.load_text, hsec, List.headD_cons, stripL_nil, ne_eq,
    not_true_eq_false, if_false, List.length_cons, List.getD_cons_succ,
    List.getD_cons_zero, List.drop_succ_cons, List.drop_zero]
  rw [if_neg (by omega)]

/-- `load_file` leaves the delimiter unchanged and can only succeed with
`initialized = true`. -/
theorem load_text_ok_shape {loader : Str → Except PyErr PyVal}
    {pmd : PandocMarkdown} {text : Str} {d : PandocMarkdown}
    (h : pmd.load_text loader text = .ok d) :
    d.delim = pmd.delim ∧ d.initialized = true ∧
      d.content = List.intercalate pmd.delim ((splitOnList pmd.delim text).drop 2) := by
  simp only [PandocMarkdown.load_text] at h
  split at h
  · exact absurd h (by simp)
  · split at h
    · exact absurd h (by simp)
    · split at h
      · exact absurd h (by simp)
      · rename_i fm hfm
        cases h
        exact ⟨rfl, rfl, rfl⟩

theorem dropWhile_idem (p : Char → Bool) (s : Str) :
    List.dropWhile p (List.dropWhile p s) = List.dropWhile p s := by
  induction s with
  | nil => rfl
  | cons a t ih =>
    by_cases h : p a
    · simp [List.dropWhile_cons, h, ih]
    · simp [List.dropWhile_cons, h]

theorem lstripL_cons_newline (s : Str) :
    lstripL ('\n' :: lstripL s) = lstripL s := by
  show List.dropWhile isPySpace ('\n' :: List.dropWhile isPySpace s) = _
  rw [List.dropWhile_cons]
  simp only [show isPySpace '\n' = true from rfl, if_true]
  exact dropWhile_idem isPySpace s

theorem intercalate4 (nl a b c e : Str) :
    List.intercalate nl [a, b, c, e] = a ++ nl ++ b ++ nl ++ c ++ nl ++ e := by
  rw [intercalate_cons₂, intercalate_cons₂, intercalate_cons₂, intercalate_single]
  simp [List.append_assoc]

/-- `dumps` on a document whose frontmatter is not `None` always succeeds
with the four-part serialization. -/
theorem dumps_ok {writer : PyVal → Str} {d : PandocMarkdown}
    (hfm : d.frontmatter ≠ PyVal.none) :
    d.dumps writer = .ok (List.intercalate (strOf "\n")
      [d.delim, stripL (writer d.frontmatter), d.delim, lstripL d.content]) := by
  unfold PandocMarkdown.dumps
  cases hv : d.frontmatter with
  | none => exact absurd hv hfm
  | str s => rfl
  | int n => rfl
  | bool b => rfl
  | list xs => rfl
  | dict m => rfl

/-! ### Claims about the document model -/

/-- C8: for every input text whose first marker-split segment is non-empty
after trimming whitespace, `load_file` always fails with the
malformed-document `ValueError` and does not produce a document. -/
theorem C8_malformed_document (loader : Str → Except PyErr PyVal)
    (pmd : PandocMarkdown) (text : Str)
    (h : stripL ((splitOnList pmd.delim text).headD []) ≠ []) :
    pmd.load_text loader text = .error .malformedDocument := by
  simp only [PandocMarkdown.load_text]
  rw [if_pos h]

theorem C8_witness :
    stripL ((splitOnList (PandocMarkdown.init defaultDelim).delim
        (strOf "a---b---c")).headD []) ≠ []
    ∧ PandocMarkdown.load_text loaderEx (PandocMarkdown.init defaultDelim)
        (strOf "a---b---c") = .error .malformedDocument :=
  ⟨by decide, C8_malformed_document loaderEx (PandocMarkdown.init defaultDelim)
      (strOf "a---b---c") (by decide)⟩

/-- C9 (counterexample): `"a---b"` splits into two segments, yet `load_file`
fails with the malformed-document error, not the missing-delimiters error,
because the malformed-document check runs first. -/
theorem C9_counterexample :
    (splitOnList defaultDelim (strOf "a---b")).length = 2
    ∧ PandocMarkdown.load_text loaderEx (PandocMarkdown.init defaultDelim)
        (strOf "a---b") = .error .malformedDocument
    ∧ PandocMarkdown.load_text loaderEx (PandocMarkdown.init defaultDelim)
        (strOf "a---b") ≠ .error .missingDelimiters := by
  refine ⟨rfl, rfl, ?_⟩
  show (Except.error PyErr.malformedDocument : Except PyErr PandocMarkdown)
      ≠ Except.error PyErr.missingDelimiters
  simp

/-- C9 (amended): on input whose first marker-split segment is empty after
trimming, fewer than three segments always yield the missing-delimiters
error; with three or more segments the missing-delimiters error is never
raised (as long as the pluggable decoder does not itself raise it) — but
text not opening with the marker fails with the malformed-document error
first, even when it also has fewer than three segments. -/
theorem C9_missing_delimiters (loader : Str → Except PyErr PyVal)
    (pmd : PandocMarkdown) (text : Str)
    (hloader : ∀ s, loader s ≠ .error .missingDelimiters) :
    (stripL ((splitOnList pmd.delim text).headD []) = [] →
      (splitOnList pmd.delim text).length < 3 →
      pmd.load_text loader text = .error .missingDelimiters)
    ∧ (3 ≤ (splitOnList pmd.delim text).length →
      pmd.load_text loader text ≠ .error .missingDelimiters) := by
  constructor
  · intro h1 h2
    simp only [PandocMarkdown.load_text]
    rw [if_neg (not_not_intro h1), if_pos h2]
  · intro h3 hcontra
    simp only [PandocMarkdown.load_text] at hcontra
    split at hcontra
    · simp at hcontra
    · split at hcontra
      · rename_i hlt
        omega
      · split at hcontra
        · rename_i e he
          obtain rfl : e = PyErr.missingDelimiters := by simpa using hcontra
          exact hloader _ he
        · simp at hcontra

theorem C9_witness :
    PandocMarkdown.load_text loaderEx (PandocMarkdown.init defaultDelim)
      (strOf "---meta") = .error .missingDelimiters
    ∧ PandocMarkdown.load_text loaderEx (PandocMarkdown.init defaultDelim)
      (strOf "---a---b") ≠ .error .missingDelimiters :=
  ⟨(C9_missing_delimiters loaderEx (PandocMarkdown.init defaultDelim)
      (strOf "---meta") (fun s => by simp [loaderEx])).1 (by decide) (by decide),
   (C9_missing_delimiters loaderEx (PandocMarkdown.init defaultDelim)
      (strOf "---a---b") (fun s => by simp [loaderEx])).2 (by decide)⟩

/-- C7: when the input is marker ++ metadata ++ marker ++ body (and no
marker occurrence starts inside the metadata section), parsing succeeds and
the content is the body verbatim — embedded marker occurrences in the body
are rejoined, not dropped; and in general, on success, the content is the
marker-join of the split segments from index 2 onward. -/
theorem C7_body_verbatim (loader : Str → Except PyErr PyVal)
    (pmd : PandocMarkdown) (m b : Str) (fm : PyVal)
    (hd : pmd.delim ≠ [])
    (hm : ¬ pmd.delim <:+: (m ++ pmd.delim.dropLast))
    (hl : loader m = .ok fm) :
    pmd.load_text loader (pmd.delim ++ m ++ pmd.delim ++ b)
      = .ok ⟨pmd.delim, fm, b, true⟩
    ∧ ∀ text d', pmd.load_text loader text = .ok d' →
        d'.content = List.intercalate pmd.delim
          ((splitOnList pmd.delim text).drop 2) := by
  constructor
  · have hsec : splitOnList pmd.delim (pmd.delim ++ m ++ pmd.delim ++ b)
        = [] :: m :: splitOnList pmd.delim b := by
      rw [show pmd.delim ++ m ++ pmd.delim ++ b
            = pmd.delim ++ (m ++ pmd.delim ++ b) by simp [List.append_assoc],
        splitOnList_cons_delim hd, splitOnList_append_no_occ hd hm]
    cases hq : splitOnList pmd.delim b with
    | nil => exact absurd hq (splitOnList_ne_nil _ _)
    | cons q t =>
      rw [load_text_sections loader pmd (by rw [hsec, hq])]
      simp only [hl]
      rw [← hq, intercalate_splitOnList hd]
  · intro text d' h
    exact (load_text_ok_shape h).2.2

theorem C7_witness :
    PandocMarkdown.load_text loaderEx (PandocMarkdown.init defaultDelim)
      ((PandocMarkdown.init defaultDelim).delim ++ strOf "\nt: 1\n"
        ++ (PandocMarkdown.init defaultDelim).delim ++ strOf "body---more")
      = .ok ⟨(PandocMarkdown.init defaultDelim).delim, .str (strOf "t: 1"),
          strOf "body---more", true⟩ :=
  (C7_body_verbatim loaderEx (PandocMarkdown.init defaultDelim)
      (strOf "\nt: 1\n") (strOf "body---more") (.str (strOf "t: 1"))
      (by decide) (by decide) rfl).1

/-- C10: for a freshly constructed `PandocMarkdown` (no `load_file` call),
`dumps` never raises: the `None` guard cannot fire because `__init__` sets
`frontmatter = dict()` and `content = ''` (and nothing consults the
`initialized` flag), so the result is delimiter, encoded empty mapping,
delimiter and empty body joined by newlines. -/
theorem C10_dumps_fresh (delim : Str) (writer : PyVal → Str) :
    PandocMarkdown.dumps writer (PandocMarkdown.init delim)
      = .ok (List.intercalate (strOf "\n")
          [delim, stripL (writer (PyVal.dict [])), delim, []]) := rfl

/-- C3 (counterexample): a valid document whose body has leading whitespace
(here `" body"`) does not round-trip byte-for-byte: serialization
left-strips the body, so re-parsing yields body `"\nbody"` instead of
`" body"`. -/
theorem C3_counterexample :
    PandocMarkdown.load_text loaderEx (PandocMarkdown.init defaultDelim)
        (strOf "---\nm\n--- body")
      = .ok ⟨defaultDelim, .str (strOf "m"), strOf " body", true⟩
    ∧ PandocMarkdown.dumps writerEx
        ⟨defaultDelim, .str (strOf "m"), strOf " body", true⟩
      = .ok (strOf "---\nm\n---\nbody")
    ∧ PandocMarkdown.load_text loaderEx (PandocMarkdown.init defaultDelim)
        (strOf "---\nm\n---\nbody")
      = .ok ⟨defaultDelim, .str (strOf "m"), strOf "\nbody", true⟩
    ∧ strOf "\nbody" ≠ strOf " body" :=
  ⟨rfl, rfl, rfl, by decide⟩

/-- C3 (amended): for every valid document (one `load_file` accepts), if the
encoded metadata inverts through the decoder and contains no marker
occurrence, then parse-of-serialize reproduces the metadata exactly and the
body up to leading whitespace (serialization left-strips the body, as the
spec's own stability law concedes). -/
theorem C3_roundtrip (loader : Str → Except PyErr PyVal) (writer : PyVal → Str)
    (pmd : PandocMarkdown) (text : Str) (d : PandocMarkdown)
    (hd : pmd.delim ≠ [])
    (hparse : pmd.load_text loader text = .ok d)
    (hfm : d.frontmatter ≠ PyVal.none)
    (hW : ¬ pmd.delim <:+:
      ('\n' :: (stripL (writer d.frontmatter) ++ '\n' :: pmd.delim.dropLast)))
    (hinv : loader ('\n' :: (stripL (writer d.frontmatter) ++ ['\n']))
      = .ok d.frontmatter) :
    ∃ s d', d.dumps writer = .ok s
      ∧ pmd.load_text loader s = .ok d'
      ∧ d'.frontmatter = d.frontmatter
      ∧ lstripL d'.content = lstripL d.content := by
  obtain ⟨hdelim, -, -⟩ := load_text_ok_shape hparse
  have hdump := @dumps_ok writer d hfm
  set W := stripL (writer d.frontmatter) with hWdef
  set L := lstripL d.content with hLdef
  have hshape : List.intercalate (strOf "\n") [d.delim, W, d.delim, L]
      = pmd.delim ++ (('\n' :: (W ++ ['\n'])) ++ pmd.delim ++ ('\n' :: L)) := by
    rw [intercalate4, hdelim]
    simp [strOf, List.append_assoc]
  have hx : ¬ pmd.delim <:+: (('\n' :: (W ++ ['\n'])) ++ pmd.delim.dropLast) := by
    intro hcontra
    apply hW
    simpa [List.append_assoc] using hcontra
  have hsec : splitOnList pmd.delim
        (List.intercalate (strOf "\n") [d.delim, W, d.delim, L])
      = [] :: ('\n' :: (W ++ ['\n'])) :: splitOnList pmd.delim ('\n' :: L) := by
    rw [hshape, splitOnList_cons_delim hd, splitOnList_append_no_occ hd hx]
  cases hq : splitOnList pmd.delim ('\n' :: L) with
  | nil => exact absurd hq (splitOnList_ne_nil _ _)
  | cons q t =>
    refine ⟨_, ⟨pmd.delim, d.frontmatter,
      List.intercalate pmd.delim (q :: t), true⟩, hdump, ?_, rfl, ?_⟩
    · rw [load_text_sections loader pmd (by rw [hsec, hq])]
      simp only [hinv]
    · show lstripL (List.intercalate pmd.delim (q :: t)) = lstripL d.content
      rw [← hq, intercalate_splitOnList hd, ← hLdef, lstripL_cons_newline]

theorem C3_roundtrip_witness :
    ∃ s d', PandocMarkdown.dumps writerEx
        ⟨defaultDelim, .str (strOf "m"), strOf " body", true⟩ = .ok s
      ∧ PandocMarkdown.load_text loaderEx (PandocMarkdown.init defaultDelim) s
        = .ok d'
      ∧ d'.frontmatter = PandocMarkdown.frontmatter
          ⟨defaultDelim, .str (strOf "m"), strOf " body", true⟩
      ∧ lstripL d'.content = lstripL (PandocMarkdown.content
          ⟨defaultDelim, .str (strOf "m"), strOf " body", true⟩) :=
  C3_roundtrip loaderEx writerEx (PandocMarkdown.init defaultDelim)
    (strOf "---\nm\n--- body")
    ⟨defaultDelim, .str (strOf "m"), strOf " body", true⟩
    (by decide) rfl (by simp) (by decide) rfl

/-! ### Claims about the page generator and the converter command -/

theorem fsRead_fsWrite (fs : FS) (p c : Str) :
    fsRead (fsWrite fs p c) p = some c := by
  induction fs with
  | nil => simp [fsWrite, fsRead]
  | cons e t ih =>
    obtain ⟨q, d⟩ := e
    by_cases h : q = p
    · subst h
      simp [fsWrite, fsRead]
    · have hb : (q == p) = false := beq_eq_false_iff_ne.mpr h
      simp [fsWrite, fsRead, hb, ih]

/-- C2: `gen_cmd` never returns a command and output path: line 118 is a
bare annotation (the `=` is missing), `out_path` is never bound, and every
call raises `UnboundLocalError` while assembling the command list. -/
theorem C2_gen_cmd_unbound_local (cfg : Config) (plain_path : Str)
    (plain_path_out : Option Str) :
    gen_cmd cfg plain_path plain_path_out
      = .error (.unboundLocal (strOf "out_path")) := rfl

/-- C1 (counterexample): with `mustache_rerender` enabled, metadata
`title: Hello` and converter output containing the top-level placeholder
tag for `title`, the rerender step writes the empty interpolation rather
than `Hello`: the metadata keys are not top-level placeholders. -/
theorem C1_counterexample :
    gen_page_rerender mustacheRender
      ⟨[], [], [], [], [], [], true, [], true⟩
      [(strOf "public/a.html", strOf "\x7b\x7btitle\x7d\x7d")]
      (strOf "public/a.html")
      (PyVal.dict [(strOf "title", .str (strOf "Hello"))])
      = .ok [(strOf "public/a.html", [])]
    ∧ ([] : Str) ≠ strOf "Hello" :=
  ⟨rfl, by decide⟩

/-- C1 (amended): with `mustache_rerender` enabled, the converter's output
file is re-read, rendered as a template whose variable context is the
mapping with the single key `children` bound to the original document's
metadata (so metadata keys are reachable only through `children`, not as
top-level placeholders), and the output file is overwritten with the
rendered result. -/
theorem C1_rerender_children_context (render : Str → List (Str × PyVal) → Str)
    (cfg : Config) (fs : FS) (out_path : Str) (fm : PyVal) (content : Str)
    (hflag : cfg.mustache_rerender = true)
    (hread : fsRead fs out_path = some content) :
    gen_page_rerender render cfg fs out_path fm
      = .ok (fsWrite fs out_path (render content [(strOf "children", fm)]))
    ∧ fsRead (fsWrite fs out_path (render content [(strOf "children", fm)]))
        out_path
      = some (render content [(strOf "children", fm)]) := by
  constructor
  · simp only [gen_page_rerender, hflag, if_true, hread]
  · exact fsRead_fsWrite fs out_path _

theorem C1_rerender_witness :
    gen_page_rerender mustacheRender ⟨[], [], [], [], [], [], true, [], true⟩
      [(strOf "p", strOf "x")] (strOf "p") PyVal.none
      = .ok (fsWrite [(strOf "p", strOf "x")] (strOf "p")
          (mustacheRender (strOf "x") [(strOf "children", PyVal.none)]))
    ∧ fsRead (fsWrite [(strOf "p", strOf "x")] (strOf "p")
          (mustacheRender (strOf "x") [(strOf "children", PyVal.none)]))
        (strOf "p")
      = some (mustacheRender (strOf "x") [(strOf "children", PyVal.none)]) :=
  C1_rerender_children_context mustacheRender
    ⟨[], [], [], [], [], [], true, [], true⟩
    [(strOf "p", strOf "x")] (strOf "p") PyVal.none (strOf "x") rfl rfl

/-! ### Claims about the YAML join constructor -/

/-- C5 (counterexample): a metadata block using the `!join` construct fails
with a constructor error under the decoder actually used for document front
matter (`yaml.safe_load`), whose loader class never receives the `!join`
handler registered at src line 18. -/
theorem C5_counterexample :
    safe_load_node (.map [(strOf "a",
        .tagged (strOf "!join")
          (.seq [.scalar (.str (strOf "x")), .scalar (.str (strOf "y"))]))])
      = .error (.constructorError (strOf "!join")) := by
  simp [safe_load_node, construct, constructPairs, safeRegistry, List.lookup]

/-- C5 (amended): the `!join` construct (a tagged sequence of strings) is
supported by the full loader used for the configuration file, where it
decodes to the concatenation of the sequence's elements; the safe loader
used for document front matter rejects the same node with a constructor
error. -/
theorem C5_join_full_loader (xs : List Str) :
    full_load_node (.tagged (strOf "!join")
        (.seq (xs.map fun s => .scalar (.str s))))
      = .ok (.str xs.flatten)
    ∧ safe_load_node (.tagged (strOf "!join")
        (.seq (xs.map fun s => .scalar (.str s))))
      = .error (.constructorError (strOf "!join")) := by
  constructor
  · have hlist : constructList fullRegistry (xs.map fun s => .scalar (.str s))
        = .ok (xs.map PyVal.str) := by
      induction xs with
      | nil => simp [constructList]
      | cons a t ih => simp [constructList, construct, ih]
    have hlk : List.lookup (strOf "!join") fullRegistry = some join := by
      simp [fullRegistry, List.lookup]
    simp only [full_load_node, construct, hlk, hlist, join, List.map_map]
    show Except.ok (PyVal.str (List.map (pyStr ∘ PyVal.str) xs).flatten) = _
    rw [show List.map (pyStr ∘ PyVal.str) xs = List.map id xs from rfl,
      List.map_id]
  · simp [safe_load_node, construct, safeRegistry, List.lookup]

/-! ### Claims about the Index Aggregator -/

theorem intercalate_append_singleton (d la : Str) :
    ∀ (q : List Str), q ≠ [] →
      List.intercalate d (q ++ [la]) = List.intercalate d q ++ d ++ la := by
  intro q
  induction q with
  | nil => intro h; exact absurd rfl h
  | cons x t ih =>
    intro _
    cases t with
    | nil =>
      rw [show ((x :: ([] : List Str)) ++ [la]) = [x, la] from rfl,
        intercalate_cons₂, intercalate_single, intercalate_single]
    | cons y t2 =>
      rw [show ((x :: y :: t2) ++ [la]) = x :: ((y :: t2) ++ [la]) from rfl,
        show ((y :: t2) ++ [la]) = y :: (t2 ++ [la]) from rfl,
        intercalate_cons₂,
        show (y :: (t2 ++ [la])) = (y :: t2) ++ [la] from rfl,
        ih (by simp), intercalate_cons₂]
      simp [List.append_assoc]

/-- The stem of a path is a prefix of its file name (so the original file
always matches its own sibling glob). -/
theorem stemOf_isPre (p : Str) : stemOf p <+: fileName p := by
  unfold stemOf
  by_cases hlen : (splitOnList (strOf ".") (fileName p)).length ≤ 1
  · simp only [hlen, if_true]
    exact List.prefix_refl _
  · simp only [hlen, if_false]
    have hdot : (strOf ".") ≠ [] := by decide
    have hne : splitOnList (strOf ".") (fileName p) ≠ [] :=
      splitOnList_ne_nil _ _
    have hjoin : List.intercalate (strOf ".")
        (splitOnList (strOf ".") (fileName p)) = fileName p :=
      intercalate_splitOnList hdot _
    have hdl : (splitOnList (strOf ".") (fileName p)).dropLast ≠ [] := by
      intro hcon
      have h2 := congrArg List.length hcon
      have h3 := congrArg List.length
        (List.dropLast_concat_getLast hne)
      simp only [List.length_append, List.length_dropLast] at h2 h3
      simp at h2
      omega
    refine ⟨strOf "." ++ (splitOnList (strOf ".") (fileName p)).getLast hne, ?_⟩
    rw [← List.append_assoc,
      ← intercalate_append_singleton _ _ _ hdl,
      List.dropLast_concat_getLast hne, hjoin]

theorem fsRead_mem {fs : FS} {p t : Str} (h : fsRead fs p = some t) :
    (p, t) ∈ fs := by
  induction fs with
  | nil => simp [fsRead] at h
  | cons e rest ih =>
    obtain ⟨q, d⟩ := e
    rw [fsRead] at h
    by_cases hq : q = p
    · subst hq
      rw [if_pos (by simp)] at h
      cases h
      exact List.mem_cons_self _ _
    · rw [if_neg (by simp [hq])] at h
      exact List.mem_cons_of_mem _ (ih h)

theorem fsRead_of_mem {fs : FS} (hnd : (fs.map Prod.fst).Nodup) {e : Str × Str}
    (he : e ∈ fs) : fsRead fs e.1 = some e.2 := by
  induction fs with
  | nil => simp at he
  | cons f rest ih =>
    obtain ⟨q, d⟩ := f
    rw [List.map_cons, List.nodup_cons] at hnd
    rcases List.mem_cons.mp he with rfl | hmem
    · rw [fsRead, if_pos (by simp)]
    · have hq : q ≠ e.1 := by
        intro hcon
        apply hnd.1
        rw [hcon]
        exact List.mem_map.mpr ⟨e, hmem, rfl⟩
      rw [fsRead, if_neg (by simp [hq])]
      exact ih hnd.2 hmem

/-- The boolean glob filter coincides with the spec-side propositional
filter. -/
theorem globFilter_eq (fs : FS) (p : Str) :
    fs.filter (fun e => parentDir e.1 == parentDir p
        && (stemOf p).isPrefixOf (fileName e.1))
      = fs.filter (fun e => decide (parentDir e.1 = parentDir p)
        && decide (stemOf p <+: fileName e.1)) := by
  apply List.filter_congr
  intro e _
  congr 1
  · rw [Bool.eq_iff_iff]
    simp
  · rw [Bool.eq_iff_iff]
    simp [List.isPrefixOf_iff_prefix]

theorem collect_go_eq_specGo (loader : Str → Except PyErr PyVal) (fs : FS)
    (entries : List (Str × Str))
    (hread : ∀ e ∈ entries, fsRead fs e.1 = some e.2) :
    collect_go loader fs (entries.map Prod.fst) = specGo loader entries := by
  induction entries with
  | nil => rfl
  | cons e rest ih =>
    obtain ⟨p, t⟩ := e
    have h1 : fsRead fs p = some t := hread _ (List.mem_cons_self _ _)
    rw [List.map_cons]
    simp only [collect_go, specGo, create_from_file, h1]
    rw [ih (fun e he => hread e (List.mem_cons_of_mem _ he))]

/-- On success `template_step` keeps delimiter, frontmatter and the
initialized flag, and the frontmatter cannot have been `None`. -/
theorem template_step_shape {fs : FS} {doc doc2 : PandocMarkdown}
    (h : template_step fs doc = .ok doc2) :
    doc2.delim = doc.delim ∧ doc2.frontmatter = doc.frontmatter
      ∧ doc2.initialized = doc.initialized ∧ doc.frontmatter ≠ PyVal.none := by
  unfold template_step at h
  revert h
  cases hfm : doc.frontmatter <;> intro h
  case str s =>
    simp only [pyContains] at h
    revert h
    cases hdec : decide ((strOf "template_file") <:+: s) <;> intro h
    · cases h
      exact ⟨rfl, hfm, rfl, by simp [hfm]⟩
    · simp [pyGetItem] at h
  case int n => simp [pyContains] at h
  case bool b => simp [pyContains] at h
  case none => simp [pyContains] at h
  case list xs =>
    simp only [pyContains] at h
    revert h
    cases hany : xs.any (fun x =>
        match x with | PyVal.str s => s == strOf "template_file" | _ => false)
      <;> intro h
    · cases h
      exact ⟨rfl, hfm, rfl, by simp [hfm]⟩
    · simp [pyGetItem] at h
  case dict m =>
    simp only [pyContains] at h
    revert h
    cases hany : m.any (fun e => e.1 == strOf "template_file") <;> intro h
    · cases h
      exact ⟨rfl, hfm, rfl, by simp [hfm]⟩
    · simp only [pyGetItem] at h
      revert h
      cases hlk : List.lookup (strOf "template_file") m <;> intro h
      · simp at h
      · rename_i w
        revert h
        cases w <;> intro h
        case str tf =>
          simp only [] at h
          cases hr : fsRead fs tf
          · rw [hr] at h
            simp at h
          · rw [hr] at h
            cases h
            exact ⟨rfl, rfl, rfl, by simp [hfm]⟩
        all_goals simp at h

theorem any_of_lookup {m : List (Str × PyVal)} {k : Str} {v : PyVal}
    (h : List.lookup k m = some v) :
    m.any (fun e => e.1 == k) = true := by
  induction m with
  | nil => simp [List.lookup] at h
  | cons e t ih =>
    obtain ⟨k', v'⟩ := e
    rw [List.lookup] at h
    by_cases hk : k = k'
    · subst hk
      simp
    · rw [beq_eq_false_iff_ne.mpr hk] at h
      simp [ih h]

/-- Success equation for `add_index_page` once the three fallible steps are
known to succeed. -/
theorem add_index_page_eq (loader : Str → Except PyErr PyVal)
    (writer : PyVal → Str) (render : Str → List (Str × PyVal) → Str)
    (cfg : Config) (fs : FS) (p : Str) {doc doc2 : PandocMarkdown}
    {recs : List (List (Str × PyVal))}
    (h1 : create_from_file loader fs p = .ok doc)
    (h2 : template_step fs doc = .ok doc2)
    (h3 : collect_downstream loader fs p = .ok recs) :
    add_index_page loader writer render cfg fs p
      = .ok (fsWrite fs
          (removeSuffix p (strOf ".md") ++ cfg.generated_index_suffix)
          (List.intercalate (strOf "\n") [doc2.delim,
            stripL (writer doc2.frontmatter), doc2.delim,
            lstripL (render doc2.content
              [(strOf "children", PyVal.list (recs.map PyVal.dict))])]),
          removeSuffix p (strOf ".md") ++ cfg.generated_index_suffix) := by
  have hfm2 : doc2.frontmatter ≠ PyVal.none := by
    obtain ⟨-, hfmeq, -, hne⟩ := template_step_shape h2
    rw [hfmeq]
    exact hne
  have hdump := @dumps_ok writer
    ⟨doc2.delim, doc2.frontmatter,
      render doc2.content [(strOf "children", PyVal.list (recs.map PyVal.dict))],
      doc2.initialized⟩ hfm2
  simp only [add_index_page, h1, h2, h3, hdump]

/-- C4: for every index document, the collected sequence is exactly: for
each file in the same directory whose name starts with the original
document's stem (a set that includes the original file itself; no exclusion
filter), that file's parsed metadata mapping augmented with the one
synthetic `__filename__` key holding the file's path, in filesystem
enumeration order; and the document body written to the generated file is
the body rendered with the single template variable `children` bound to
that sequence. -/
theorem C4_index_children (loader : Str → Except PyErr PyVal)
    (writer : PyVal → Str) (render : Str → List (Str × PyVal) → Str)
    (cfg : Config) (fs : FS) (p : Str) (doc doc2 : PandocMarkdown)
    (recs : List (List (Str × PyVal)))
    (hnd : (fs.map Prod.fst).Nodup)
    (h1 : create_from_file loader fs p = .ok doc)
    (h2 : template_step fs doc = .ok doc2)
    (h3 : collect_downstream loader fs p = .ok recs) :
    collect_downstream loader fs p = siblingRecordsSpec loader fs p
    ∧ p ∈ globStem fs p
    ∧ add_index_page loader writer render cfg fs p
      = .ok (fsWrite fs
          (removeSuffix p (strOf ".md") ++ cfg.generated_index_suffix)
          (List.intercalate (strOf "\n") [doc2.delim,
            stripL (writer doc2.frontmatter), doc2.delim,
            lstripL (render doc2.content
              [(strOf "children", PyVal.list (recs.map PyVal.dict))])]),
          removeSuffix p (strOf ".md") ++ cfg.generated_index_suffix) := by
  refine ⟨?_, ?_, add_index_page_eq loader writer render cfg fs p h1 h2 h3⟩
  · unfold collect_downstream siblingRecordsSpec globStem
    rw [globFilter_eq]
    apply collect_go_eq_specGo
    intro e he
    exact fsRead_of_mem hnd (List.mem_of_mem_filter he)
  · unfold create_from_file at h1
    revert h1
    cases hr : fsRead fs p <;> intro h1
    · simp at h1
    · rename_i text
      have hmem : (p, text) ∈ fs := fsRead_mem hr
      unfold globStem
      refine List.mem_map.mpr ⟨(p, text), List.mem_filter.mpr ⟨hmem, ?_⟩, rfl⟩
      simp [List.isPrefixOf_iff_prefix, stemOf_isPre p]

theorem C4_witness :
    collect_downstream dictLoaderEx fsC4 (strOf "d/notes.md")
      = siblingRecordsSpec dictLoaderEx fsC4 (strOf "d/notes.md")
    ∧ strOf "d/notes.md" ∈ globStem fsC4 (strOf "d/notes.md")
    ∧ add_index_page dictLoaderEx writerEx mustacheRender cfgIdx fsC4
        (strOf "d/notes.md")
      = .ok (fsWrite fsC4
          (removeSuffix (strOf "d/notes.md") (strOf ".md")
            ++ cfgIdx.generated_index_suffix)
          (List.intercalate (strOf "\n") [docC4.delim,
            stripL (writerEx docC4.frontmatter), docC4.delim,
            lstripL (mustacheRender docC4.content
              [(strOf "children", PyVal.list (recsC4.map PyVal.dict))])]),
          removeSuffix (strOf "d/notes.md") (strOf ".md")
            ++ cfgIdx.generated_index_suffix) :=
  C4_index_children dictLoaderEx writerEx mustacheRender cfgIdx fsC4
    (strOf "d/notes.md") docC4 docC4 recsC4 (by decide) rfl rfl rfl

/-- C6: for every index document whose metadata contains a `template_file`
key, the template file's full contents are appended verbatim to the body
before rendering, so the body used for rendering is original body ++
template-file contents — in particular, when the original body is empty
the body handed to the template engine is exactly the template-file
contents, and the written document's body is its render. -/
theorem C6_template_file_appended (loader : Str → Except PyErr PyVal)
    (writer : PyVal → Str) (render : Str → List (Str × PyVal) → Str)
    (cfg : Config) (fs : FS) (p : Str) (doc : PandocMarkdown)
    (fmE : List (Str × PyVal)) (tf tcont : Str)
    (recs : List (List (Str × PyVal)))
    (h1 : create_from_file loader fs p = .ok doc)
    (hfm : doc.frontmatter = .dict fmE)
    (hlk : List.lookup (strOf "template_file") fmE = some (.str tf))
    (hread : fsRead fs tf = some tcont)
    (h3 : collect_downstream loader fs p = .ok recs) :
    template_step fs doc
      = .ok ⟨doc.delim, doc.frontmatter, doc.content ++ tcont, doc.initialized⟩
    ∧ (doc.content = [] → doc.content ++ tcont = tcont)
    ∧ add_index_page loader writer render cfg fs p
      = .ok (fsWrite fs
          (removeSuffix p (strOf ".md") ++ cfg.generated_index_suffix)
          (List.intercalate (strOf "\n") [doc.delim,
            stripL (writer doc.frontmatter), doc.delim,
            lstripL (render (doc.content ++ tcont)
              [(strOf "children", PyVal.list (recs.map PyVal.dict))])]),
          removeSuffix p (strOf ".md") ++ cfg.generated_index_suffix) := by
  have hany : fmE.any (fun e => e.1 == strOf "template_file") = true :=
    any_of_lookup hlk
  have hts : template_step fs doc
      = .ok ⟨doc.delim, doc.frontmatter, doc.content ++ tcont,
          doc.initialized⟩ := by
    simp only [template_step, pyContains, hfm, hany, pyGetItem, hlk, hread]
  refine ⟨hts, fun h => by rw [h, List.nil_append], ?_⟩
  have heq := add_index_page_eq loader writer render cfg fs p h1 hts h3
  simpa only [] using heq

theorem C6_witness :
    template_step fsC6 docC6
      = .ok ⟨docC6.delim, docC6.frontmatter, docC6.content ++ strOf "Hello",
          docC6.initialized⟩
    ∧ (docC6.content = [] → docC6.content ++ strOf "Hello" = strOf "Hello")
    ∧ add_index_page tplLoaderEx writerEx mustacheRender cfgIdx fsC6
        (strOf "d/notes.md")
      = .ok (fsWrite fsC6
          (removeSuffix (strOf "d/notes.md") (strOf ".md")
            ++ cfgIdx.generated_index_suffix)
          (List.intercalate (strOf "\n") [docC6.delim,
            stripL (writerEx docC6.frontmatter), docC6.delim,
            lstripL (mustacheRender (docC6.content ++ strOf "Hello")
              [(strOf "children", PyVal.list (recsC6.map PyVal.dict))])]),
          removeSuffix (strOf "d/notes.md") (strOf ".md")
            ++ cfgIdx.generated_index_suffix) :=
  C6_template_file_appended tplLoaderEx writerEx mustacheRender cfgIdx fsC6
    (strOf "d/notes.md") docC6
    [(strOf "template_file", .str (strOf "d/tpl.txt"))]
    (strOf "d/tpl.txt") (strOf "Hello") recsC6 rfl rfl rfl rfl rfl

end Build
